import Mathlib

/-!
Verification development for the RepFinder server (src/server.js).

The file shallowly embeds the representative-resolution core of the server:
the officeholder index builder (`loadIndex`), the district extractor of the
`/api/rep` route, the resolution join, and the reload handler.  JavaScript
values are modelled explicitly: absent/falsy object fields become `Option`,
`new Date(x)` results become `JDate` (an epoch integer or an invalid date),
JavaScript number epochs become `Int` (with `none : Option Int` standing for
the `NaN` produced by `Invalid Date .getTime()`), and JavaScript objects
become association lists whose order models `Object.keys` insertion order
(the field names that occur here are never array-index-like, so insertion
order is the iteration order).  String primitives (`toLowerCase`,
`includes`, `match`, `parseInt`, `padStart`, `slice`, `split`) are embedded
over `List Char` with the ASCII semantics the server's data exercises.
-/

set_option maxHeartbeats 1000000

namespace RepFinder

/-! ### JavaScript string primitives -/

/-- Characters matched by the regex class `\s` (ASCII portion). -/
def jsIsSpace (c : Char) : Bool :=
  c = ' ' || c = '\t' || c = '\n' || c = '\r' || c = '\x0b' || c = '\x0c'

/-- Characters matched by the regex class `[-\s]` used in the at-large test. -/
def isHySpace (c : Char) : Bool := c = '-' || jsIsSpace c

/-- Longest prefix of decimal digits, as in the regex `\d+` anchored here. -/
def takeDigitsPfx : List Char → List Char
  | [] => []
  | c :: cs => if c.isDigit then c :: takeDigitsPfx cs else []

/-- First maximal run of digits in the list: the match of `/\d+/`. -/
def firstDigitRun : List Char → Option (List Char)
  | [] => none
  | c :: cs => if c.isDigit then some (c :: takeDigitsPfx cs) else firstDigitRun cs

/-- Value of a digit string, as `parseInt` computes it on pure digits. -/
def digitsToNat (ds : List Char) : Nat :=
  ds.foldl (fun a c => a * 10 + (c.toNat - 48)) 0

/-- JavaScript `parseInt(s, 10)`: skip leading whitespace, optional sign,
then leading digits; `none` models the `NaN` result. -/
def jsParseInt (s : String) : Option Int :=
  match s.data.dropWhile jsIsSpace with
  | '-' :: rest =>
    match takeDigitsPfx rest with
    | [] => none
    | ds => some (-(digitsToNat ds : Int))
  | '+' :: rest =>
    match takeDigitsPfx rest with
    | [] => none
    | ds => some ((digitsToNat ds : Int))
  | cs =>
    match takeDigitsPfx cs with
    | [] => none
    | ds => some ((digitsToNat ds : Int))

/-- JavaScript `String(parseInt(v, 10))`: `NaN` prints as `"NaN"`. -/
def strOfParseInt (o : Option Int) : String :=
  match o with
  | none => "NaN"
  | some i => Int.repr i

/-- The capture of `/(\d+)\s*$/`: the trailing run of digits, allowing
trailing whitespace after it. -/
def trailingDigits (s : String) : Option (List Char) :=
  let r := (s.data.reverse.dropWhile jsIsSpace).takeWhile Char.isDigit
  if r.isEmpty then none else some r.reverse

/-- Case-insensitive prefix test against a lowercase pattern. -/
def startsWithCI : List Char → List Char → Bool
  | [], _ => true
  | _ :: _, [] => false
  | p :: ps, c :: cs => (c.toLower = p) && startsWithCI ps cs

/-- Case-insensitive substring test against a lowercase pattern, modelling
both `s.toLowerCase().includes(pat)` and `/pat/i.test(s)`. -/
def containsCISub (pat : List Char) : List Char → Bool
  | [] => pat.isEmpty
  | c :: cs => startsWithCI pat (c :: cs) || containsCISub pat cs

/-- String front-end for `containsCISub`. -/
def containsCI (s : String) (pat : List Char) : Bool := containsCISub pat s.data

/-- Matcher for the tail `[-\s]*large` of the at-large regex: skip the
hyphen/space run, then demand `large` case-insensitively.  (The next
literal `l` is not in the class `[-\s]`, so the greedy skip is exact.) -/
def largeAfterGap : List Char → Bool
  | [] => false
  | c :: cs => if isHySpace c then largeAfterGap cs
               else startsWithCI ['l', 'a', 'r', 'g', 'e'] (c :: cs)

/-- Scanner for `/at[-\s]*large/i`: try a match at every position. -/
def atLargeScan : List Char → Bool
  | [] => false
  | c :: cs =>
    (match cs with
     | t :: rest => (c.toLower = 'a') && (t.toLower = 't') && largeAfterGap rest
     | [] => false) || atLargeScan cs

/-- JavaScript `/at[-\s]*large/i.test(s)`. -/
def atLargeTest (s : String) : Bool := atLargeScan s.data

/-- JavaScript `split` on a one-character separator, over char lists. -/
def splitOnChar (sep : Char) : List Char → List (List Char)
  | [] => [[]]
  | c :: cs =>
    let r := splitOnChar sep cs
    if c = sep then [] :: r
    else
      match r with
      | [] => [[c]]
      | h :: t => (c :: h) :: t

/-- JavaScript `s.split('-')` and friends. -/
def jsSplit (s : String) (sep : Char) : List String :=
  (splitOnChar sep s.data).map (fun l => (⟨l⟩ : String))

/-- JavaScript `s.padStart(2, '0')`. -/
def padStart2 (s : String) : String :=
  if s.data.length < 2 then ⟨List.replicate (2 - s.data.length) '0' ++ s.data⟩ else s

/-! ### Truthiness helpers for optional string fields -/

/-- Truthiness of a possibly-absent string field: present and nonempty. -/
def strTruthy : Option String → Bool
  | none => false
  | some s => s ≠ ""

/-- JavaScript `a || b || … || ''` over optional string fields. -/
def firstTruthy : List (Option String) → String
  | [] => ""
  | a :: rest => if strTruthy a then a.getD "" else firstTruthy rest

/-! ### Data model: roster records (legislators-current.yaml after js-yaml) -/

/-- Result of `new Date(x)` on a truthy raw date field: a valid date with a
millisecond epoch, or an Invalid Date. -/
inductive JDate
  | valid (epoch : Int)
  | invalid
deriving DecidableEq, Repr

/-- A raw `district` value as YAML delivers it: a number or a string. -/
inductive RawDistrict
  | numVal (n : Int)
  | strVal (s : String)
deriving DecidableEq, Repr

/-- One term record of a legislator.  `start`/`end` are `none` when the raw
field is absent or falsy, otherwise the `new Date` parse result. -/
structure TermRecord where
  type : String
  state : Option String
  district : Option RawDistrict
  start : Option JDate
  «end» : Option JDate
  party : Option String
  phone : Option String
  url : Option String
deriving DecidableEq, Repr

/-- The shapes `person.name` can take: a structured object or a flat string. -/
inductive JNameVal
  | objName (first middle last : Option String)
  | strName (s : String)
deriving DecidableEq, Repr

/-- One legislator record.  `bioguide` models `person.id && person.id.bioguide`
with `none` for a missing `id` object or missing key. -/
structure Person where
  name : Option JNameVal
  first_name : Option String
  last_name : Option String
  full_name : Option String
  party : Option String
  phone : Option String
  url : Option String
  website : Option String
  bioguide : Option String
  terms : List TermRecord
deriving DecidableEq, Repr

/-- Embeds `normalizeName` from server.js. -/
def joinNonEmpty (parts : List (Option String)) : String :=
  String.intercalate " " ((parts.filterMap id).filter (fun s => s ≠ ""))

/-- The string branch of `person.name` when it is not an object. -/
def nameAsStr : Option JNameVal → Option String
  | some (JNameVal.strName s) => some s
  | _ => none

/-- Embeds `normalizeName(person)` from server.js lines 25-32. -/
def normalizeName (p : Person) : String :=
  match p.name with
  | some (JNameVal.objName f m l) => joinNonEmpty [f, m, l]
  | _ =>
    if strTruthy p.first_name || strTruthy p.last_name then
      joinNonEmpty [p.first_name, p.last_name]
    else firstTruthy [nameAsStr p.name, p.full_name]

/-! ### Term normalizer: district normalization (server.js lines 44-50) -/

/-- Step `if (typeof districtRaw === 'string') { … match(/\d+/) … }`:
replace a digit-bearing string by `String(parseInt(firstRun, 10))`. -/
def districtAfterExtract : Option RawDistrict → Option RawDistrict
  | some (RawDistrict.strVal s) =>
    match firstDigitRun s.data with
    | some ds => some (RawDistrict.strVal (Nat.repr (digitsToNat ds)))
    | none => some (RawDistrict.strVal s)
  | x => x

/-- Step `let district = districtRaw ? String(districtRaw) : null`. -/
def rawTruthyStr : Option RawDistrict → Option String
  | none => none
  | some (RawDistrict.numVal n) => if n = 0 then none else some (Int.repr n)
  | some (RawDistrict.strVal s) => if s = "" then none else some s

/-- `String(districtRaw)` as fed to the at-large regex. -/
def rawToStr : Option RawDistrict → String
  | none => "undefined"
  | some (RawDistrict.numVal n) => Int.repr n
  | some (RawDistrict.strVal s) => s

/-- District normalization of `loadIndex` (server.js lines 44-50). -/
def normDistrict (raw : Option RawDistrict) : String :=
  let dr := districtAfterExtract raw
  let district := rawTruthyStr dr
  if district.isNone || district = some "0" || atLargeTest (rawToStr dr) then "1"
  else district.getD ""

/-- Template-literal rendering of the possibly-missing `state` field. -/
def jsStateStr : Option String → String
  | none => "undefined"
  | some s => s

/-- The canonical key `${state}-${district}` built for a term. -/
def keyOf (t : TermRecord) : String :=
  jsStateStr t.state ++ "-" ++ normDistrict t.district

/-- Comparison `start <= today` on a `new Date` result: false for an
Invalid Date (`NaN` comparisons are false). -/
def dLE (d : JDate) (today : Int) : Bool :=
  match d with
  | JDate.valid e => decide (e ≤ today)
  | JDate.invalid => false

/-- Comparison `end >= today` on a `new Date` result. -/
def dGE (d : JDate) (today : Int) : Bool :=
  match d with
  | JDate.valid e => decide (today ≤ e)
  | JDate.invalid => false

/-- Currency test `(!start || start <= today) && (!end || end >= today)`. -/
def isCurrentTerm (t : TermRecord) (today : Int) : Bool :=
  (match t.start with | none => true | some d => dLE d today) &&
  (match t.«end» with | none => true | some d => dGE d today)

/-- The candidate field `start: start ? start.getTime() : 0`; `none` models
the `NaN` of an Invalid Date's `getTime()`. -/
def startEpochOf (t : TermRecord) : Option Int :=
  match t.start with
  | none => some 0
  | some (JDate.valid e) => some e
  | some JDate.invalid => none

/-! ### Officeholder index builder (`loadIndex`, server.js lines 34-80) -/

/-- One entry of the per-key candidate list built by `loadIndex`. -/
structure Candidate where
  person : Person
  term : TermRecord
  isCurrent : Bool
  start : Option Int
deriving DecidableEq, Repr

/-- The candidate object pushed for one term. -/
def mkCandidate (p : Person) (t : TermRecord) (today : Int) : Candidate :=
  { person := p, term := t, isCurrent := isCurrentTerm t today, start := startEpochOf t }

/-- `terms.filter(tt => tt.type === 'rep')`. -/
def repTerms (p : Person) : List TermRecord :=
  p.terms.filter (fun tt => tt.type = "rep")

/-- JavaScript-object lookup on an association list (keys are unique in the
objects the server builds). -/
def amLookup {α : Type} (m : List (String × α)) (k : String) : Option α :=
  (m.find? (fun kv => kv.1 = k)).map (fun kv => kv.2)

/-- `if (!map[key]) map[key] = []; map[key].push(candidate)`: extend the
existing property or append a new one at the end of the key order. -/
def amPush : List (String × List Candidate) → String → Candidate →
    List (String × List Candidate)
  | [], k, c => [(k, [c])]
  | kv :: rest, k, c =>
    if kv.1 = k then (kv.1, kv.2 ++ [c]) :: rest else kv :: amPush rest k c

/-- The double loop of `loadIndex` accumulating the candidate map. -/
def buildMapAux (today : Int) : List Person → List (String × List Candidate) →
    List (String × List Candidate)
  | [], m => m
  | p :: ps, m =>
    buildMapAux today ps
      ((repTerms p).foldl (fun m2 t => amPush m2 (keyOf t) (mkCandidate p t today)) m)

/-- The candidate map `map` of `loadIndex` after both loops. -/
def buildMap (docs : List Person) (today : Int) : List (String × List Candidate) :=
  buildMapAux today docs []

/-- The accumulator step `cur.start > (best.start || 0) ? cur : best` of the
reduce; a `NaN` start (`none`) never wins the comparison, and a `NaN`
incumbent is coerced to `0` by `|| 0`. -/
def betterStart (best cur : Candidate) : Candidate :=
  match cur.start with
  | none => best
  | some c => if (best.start.getD 0) < c then cur else best

/-- The selection of `loadIndex` lines 65-66:
`arr.find(a => a.isCurrent)` and otherwise
`arr.reduce((best, cur) => …, arr[0])` (the reduce with an explicit initial
value runs over every element, `arr[0]` included). -/
def chooseCandidate (arr : List Candidate) : Option Candidate :=
  match arr.find? (fun a => a.isCurrent) with
  | some c => some c
  | none =>
    match arr with
    | [] => none
    | a0 :: _ => some (arr.foldl betterStart a0)

/-- One materialized index entry (server.js lines 68-76). -/
structure Entry where
  name : String
  party : String
  phone : String
  url : String
  bioguide : Option String
  raw_person : Person
  raw_term : TermRecord
deriving DecidableEq, Repr

/-- Materialization of the chosen candidate into an index entry. -/
def mkEntry (c : Candidate) : Entry :=
  let p := c.person
  let t := c.term
  { name := normalizeName p
  , party := firstTruthy [t.party, p.party]
  , phone := firstTruthy [t.phone, p.phone]
  , url := firstTruthy [t.url, p.url, p.website]
  , bioguide := if strTruthy p.bioguide then p.bioguide else none
  , raw_person := p
  , raw_term := t }

/-- The whole build of `loadIndex`: candidate map, then one selected entry
per key, in key insertion order.  (Every list in the map is nonempty by
construction; the `none` branch is unreachable.) -/
def loadIndex (docs : List Person) (today : Int) : List (String × Entry) :=
  (buildMap docs today).foldl
    (fun out kv =>
      match chooseCandidate kv.2 with
      | some c => out ++ [(kv.1, mkEntry c)]
      | none => out) []

/-! ### District extractor (`/api/rep`, server.js lines 287-324) -/

/-- One district-geography object: field order models `Object.keys` order. -/
abbrev CDObj := List (String × String)

/-- The geography mapping `geogs`: key to array of district objects. -/
abbrev Geogs := List (String × List CDObj)

/-- Exact property access on a geography object. -/
def cdGet (cd : CDObj) (k : String) : Option String :=
  (cd.find? (fun kv => kv.1 = k)).map (fun kv => kv.2)

/-- Property access keeping only truthy (nonempty) values. -/
def truthyGet (cd : CDObj) (k : String) : Option String :=
  match cdGet cd k with
  | some v => if v = "" then none else some v
  | none => none

/-- The regex `/^CD\d{1,3}$/i` on a field name. -/
def isCDKey (k : String) : Bool :=
  match k.data with
  | c :: d :: rest =>
    (c.toLower = 'c') && (d.toLower = 'd') &&
      (!rest.isEmpty) && decide (rest.length ≤ 3) && rest.all Char.isDigit
  | _ => false

/-- What a single field of the scan loop yields (server.js lines 305-311):
the `CD…` rule, else the name-contains-district rule, `none` to keep
scanning. -/
def fieldYield (k v : String) : Option String :=
  if isCDKey k && v ≠ "" then some (strOfParseInt (jsParseInt v))
  else if containsCI k ['n','a','m','e'] && v ≠ "" &&
      containsCI v ['d','i','s','t','r','i','c','t'] then
    (trailingDigits v).map (fun ds => Nat.repr (digitsToNat ds))
  else none

/-- The `for (const k of Object.keys(cd))` scan with its two `break`s. -/
def scanKeys : List (String × String) → Option String
  | [] => none
  | (k, v) :: rest =>
    match fieldYield k v with
    | some d => some d
    | none => scanKeys rest

/-- District number of one object: the scan, then the
`if (!districtNum && cd.NAME)` trailing-digits fallback. -/
def districtNumOf (cd : CDObj) : Option String :=
  match scanKeys cd with
  | some d => some d
  | none =>
    match truthyGet cd "NAME" with
    | some nv => (trailingDigits nv).map (fun ds => Nat.repr (digitsToNat ds))
    | none => none

/-- Final step `if (!districtNum || districtNum === '0') districtNum = '1'`. -/
def finalDistrict : Option String → String
  | none => "1"
  | some s => if s = "0" then "1" else s

/-- The fixed FIPS→postal table of server.js lines 84-91. -/
def FIPS_TO_STATE : List (String × String) :=
  [("01", "AL"), ("02", "AK"), ("04", "AZ"), ("05", "AR"), ("06", "CA"),
   ("08", "CO"), ("09", "CT"), ("10", "DE"), ("11", "DC"), ("12", "FL"),
   ("13", "GA"), ("15", "HI"), ("16", "ID"), ("17", "IL"), ("18", "IN"),
   ("19", "IA"), ("20", "KS"), ("21", "KY"), ("22", "LA"), ("23", "ME"),
   ("24", "MD"), ("25", "MA"), ("26", "MI"), ("27", "MN"), ("28", "MS"),
   ("29", "MO"), ("30", "MT"), ("31", "NE"), ("32", "NV"), ("33", "NH"),
   ("34", "NJ"), ("35", "NM"), ("36", "NY"), ("37", "NC"), ("38", "ND"),
   ("39", "OH"), ("40", "OK"), ("41", "OR"), ("42", "PA"), ("44", "RI"),
   ("45", "SC"), ("46", "SD"), ("47", "TN"), ("48", "TX"), ("49", "UT"),
   ("50", "VT"), ("51", "VA"), ("53", "WA"), ("54", "WV"), ("55", "WI"),
   ("56", "WY"), ("72", "PR")]

/-- `cd.STATE || cd.STATEFP || (cd.GEOID && String(cd.GEOID).slice(0,2))`. -/
def stateFipsRawOf (cd : CDObj) : Option String :=
  match truthyGet cd "STATE" with
  | some v => some v
  | none =>
    match truthyGet cd "STATEFP" with
    | some v => some v
    | none => (truthyGet cd "GEOID").map (fun g => (⟨g.data.take 2⟩ : String))

/-- The resolved postal state of one object: pad the FIPS code to two digits
and translate through the table; `none` triggers the `continue`. -/
def stateOf (cd : CDObj) : Option String :=
  (stateFipsRawOf cd).bind (fun r => amLookup FIPS_TO_STATE (padStart2 r))

/-- The key a single district object contributes, if its state resolves. -/
def keyOfCD (cd : CDObj) : Option String :=
  match stateOf cd with
  | none => none
  | some st => some (st ++ "-" ++ finalDistrict (districtNumOf cd))

/-- `Set.add`: JavaScript sets keep first-insertion order and drop repeats. -/
def setAdd (l : List String) (k : String) : List String :=
  if k ∈ l then l else l ++ [k]

/-- The `for (const cd of cdArray)` loop filling `foundKeys`. -/
def extractKeysAux : List CDObj → List String → List String
  | [], acc => acc
  | cd :: rest, acc =>
    extractKeysAux rest
      (match keyOfCD cd with
       | none => acc
       | some k => setAdd acc k)

/-- The set of canonical keys extracted from a district array. -/
def extractKeys (cds : List CDObj) : List String := extractKeysAux cds []

/-- The defensive congress-collection scan (server.js lines 288-293):
first key whose lowercase name contains `congress`. -/
def scanCongress : Geogs → Option (List CDObj)
  | [] => none
  | (k, v) :: rest =>
    if containsCI k ['c','o','n','g','r','e','s','s'] then some v
    else scanCongress rest

/-- The fixed-spelling fallback chain of server.js line 295.  Arrays are
always truthy in JavaScript, so the chain stops at the first key that is
present, even with an empty array. -/
def fallbackLookup (g : Geogs) : Option (List CDObj) :=
  match amLookup g "Congressional Districts" with
  | some v => some v
  | none =>
    match amLookup g "Congressional District" with
    | some v => some v
    | none =>
      match amLookup g "CongressionalDistricts" with
      | some v => some v
      | none => amLookup g "Congressional district"

/-- The error message of the no-districts 404 response. -/
def CENSUS_ERR : String := "No Congressional Districts returned by Census for ZIP centroid"

/-- Locating `cdArray` (server.js lines 287-299): the scan, the fallback
when the scan produced nothing or an empty array, and the 404 error when
neither yields a nonempty collection. -/
def findCDArray (g : Geogs) : Except String (List CDObj) :=
  let second :=
    match scanCongress g with
    | some v => if v.isEmpty then fallbackLookup g else some v
    | none => fallbackLookup g
  match second with
  | some v => if v.isEmpty then Except.error CENSUS_ERR else Except.ok v
  | none => Except.error CENSUS_ERR

/-! ### Resolution service (server.js lines 327-353) -/

/-- One element of the `representatives` array.  `none` in an optional field
models a property that is absent or `null` in the JavaScript object; the
found branch has no `missing` property, which reads as falsy. -/
structure ResolvedRep where
  state : String
  district : Option String
  name : Option String
  party : Option String
  phone : Option String
  url : Option String
  bioguide : Option String
  photo : Option String
  raw_person : Option Person
  raw_term : Option TermRecord
  missing : Bool
deriving DecidableEq, Repr

/-- The join of one key against the index, `const [st, dnum] = k.split('-')`
included. -/
def resolveOne (index : List (String × Entry)) (k : String) : ResolvedRep :=
  match amLookup index k with
  | some rep =>
    { state := ((jsSplit k '-').get? 0).getD ""
    , district := (jsSplit k '-').get? 1
    , name := some rep.name
    , party := some rep.party
    , phone := some rep.phone
    , url := some rep.url
    , bioguide := rep.bioguide
    , photo := rep.bioguide.map
        (fun b => "https://bioguide.congress.gov/photo/" ++ b ++ ".jpg")
    , raw_person := some rep.raw_person
    , raw_term := some rep.raw_term
    , missing := false }
  | none =>
    { state := ((jsSplit k '-').get? 0).getD ""
    , district := (jsSplit k '-').get? 1
    , name := none
    , party := none
    , phone := none
    , url := none
    , bioguide := none
    , photo := none
    , raw_person := none
    , raw_term := none
    , missing := true }

/-- The `for (const k of Array.from(foundKeys))` loop: one pushed record per
key, in set order. -/
def resolveReps (index : List (String × Entry)) (keys : List String) : List ResolvedRep :=
  keys.map (resolveOne index)

/-! ### Reload handler (server.js lines 364-367)

The file read and the YAML parse are the operations that can throw during a
reload; they happen before any assignment to the process-wide `INDEX`, which
is written only by the single final assignment of `loadIndex`.  The handler
is modelled as a function of the previous published index and the outcome of
the read-and-parse step: on failure it returns the previous index with a
500 response (`false`), on success the freshly built index with `ok`. -/
def reloadHandler (prev : List (String × Entry)) (load : Except String (List Person))
    (today : Int) : List (String × Entry) × Bool :=
  match load with
  | Except.ok docs => (loadIndex docs today, true)
  | Except.error _ => (prev, false)

/-! ### Facts about decimal renderings

`Nat.repr`/`Int.repr` model JavaScript `String(number)` on integers.  The
normalization proofs need three facts: a rendering is never empty, it is
`"0"` exactly for zero, and it never matches the at-large regex. -/

/-- The ten decimal digit characters. -/
def decChars : List Char := ['0','1','2','3','4','5','6','7','8','9']

theorem digitChar_mem_decChars (n : Nat) (h : n < 10) : Nat.digitChar n ∈ decChars := by
  have hn : n = 0 ∨ n = 1 ∨ n = 2 ∨ n = 3 ∨ n = 4 ∨ n = 5 ∨ n = 6 ∨ n = 7 ∨ n = 8 ∨ n = 9 := by
    omega
  rcases hn with rfl | rfl | rfl | rfl | rfl | rfl | rfl | rfl | rfl | rfl <;> decide

theorem toDigitsCore_mem (f : Nat) : ∀ (n : Nat) (ds : List Char),
    (∀ c ∈ ds, c ∈ decChars) → ∀ c ∈ Nat.toDigitsCore 10 f n ds, c ∈ decChars := by
  induction f with
  | zero => intro n ds h; simpa [Nat.toDigitsCore] using h
  | succ f ih =>
    intro n ds h
    have hd : Nat.digitChar (n % 10) ∈ decChars :=
      digitChar_mem_decChars _ (Nat.mod_lt _ (by omega))
    have hcons : ∀ c ∈ Nat.digitChar (n % 10) :: ds, c ∈ decChars := by
      intro c hc
      rcases List.mem_cons.mp hc with rfl | hc
      · exact hd
      · exact h c hc
    simp only [Nat.toDigitsCore]
    split
    · exact hcons
    · exact ih _ _ hcons

theorem toDigits_mem (n : Nat) : ∀ c ∈ Nat.toDigits 10 n, c ∈ decChars := by
  unfold Nat.toDigits
  exact toDigitsCore_mem _ _ _ (by simp)

theorem natRepr_data (n : Nat) : (Nat.repr n).data = Nat.toDigits 10 n := rfl

theorem toDigitsCore_ne_nil (f : Nat) : ∀ (n : Nat) (ds : List Char), ds ≠ [] →
    Nat.toDigitsCore 10 f n ds ≠ [] := by
  induction f with
  | zero => intro n ds h; simpa [Nat.toDigitsCore] using h
  | succ f ih =>
    intro n ds _
    simp only [Nat.toDigitsCore]
    split
    · simp
    · exact ih _ _ (by simp)

theorem toDigits_ne_nil (n : Nat) : Nat.toDigits 10 n ≠ [] := by
  unfold Nat.toDigits
  simp only [Nat.toDigitsCore]
  split
  · simp
  · exact toDigitsCore_ne_nil _ _ _ (by simp)

theorem natRepr_ne_empty (n : Nat) : Nat.repr n ≠ "" := by
  intro h
  have hdata := congrArg String.data h
  rw [natRepr_data] at hdata
  exact toDigits_ne_nil n hdata

theorem toDigitsCore_len (f : Nat) : ∀ (n : Nat) (ds : List Char),
    ds.length ≤ (Nat.toDigitsCore 10 f n ds).length := by
  induction f with
  | zero => intro n ds; simp [Nat.toDigitsCore]
  | succ f ih =>
    intro n ds
    simp only [Nat.toDigitsCore]
    split
    · simp
    · exact le_trans (by simp) (ih (n / 10) (Nat.digitChar (n % 10) :: ds))

theorem toDigitsCore_len_succ (f n : Nat) (ds : List Char) :
    ds.length + 1 ≤ (Nat.toDigitsCore 10 (f + 1) n ds).length := by
  simp only [Nat.toDigitsCore]
  split
  · simp
  · calc ds.length + 1 = (Nat.digitChar (n % 10) :: ds).length := by simp
      _ ≤ _ := toDigitsCore_len f _ _

theorem toDigits_len2 (n : Nat) (h : 10 ≤ n) : 2 ≤ (Nat.toDigits 10 n).length := by
  unfold Nat.toDigits
  simp only [Nat.toDigitsCore]
  have hdiv : ¬(n / 10 = 0) := by
    have := (Nat.one_le_div_iff (b := 10) (a := n) (by omega)).mpr h
    omega
  rw [if_neg hdiv]
  obtain ⟨g, hg⟩ : ∃ g, n = g + 1 := ⟨n - 1, by omega⟩
  calc 2 = [Nat.digitChar (n % 10)].length + 1 := by simp
    _ ≤ _ := by rw [hg]; exact toDigitsCore_len_succ g _ _

theorem toDigits_lt10 (n : Nat) (h : n < 10) : Nat.toDigits 10 n = [Nat.digitChar n] := by
  unfold Nat.toDigits
  simp only [Nat.toDigitsCore]
  rw [Nat.mod_eq_of_lt h, if_pos (Nat.div_eq_of_lt h)]

theorem natRepr_eq_zero_iff (n : Nat) : Nat.repr n = "0" ↔ n = 0 := by
  constructor
  · intro h
    have hdata : Nat.toDigits 10 n = ['0'] := by
      have := congrArg String.data h
      rwa [natRepr_data] at this
    by_cases hn : n < 10
    · rw [toDigits_lt10 n hn] at hdata
      have hchar : Nat.digitChar n = '0' := by
        injection hdata
      have h10 : n = 0 ∨ n = 1 ∨ n = 2 ∨ n = 3 ∨ n = 4 ∨ n = 5 ∨ n = 6 ∨ n = 7 ∨
          n = 8 ∨ n = 9 := by omega
      rcases h10 with rfl | rfl | rfl | rfl | rfl | rfl | rfl | rfl | rfl | rfl <;>
        first
        | rfl
        | exact absurd hchar (by decide)
    · exfalso
      have := toDigits_len2 n (by omega)
      rw [hdata] at this
      simp at this
  · rintro rfl
    rfl

theorem digit_toLower_ne_a (c : Char) (h : c ∈ decChars) : c.toLower ≠ 'a' := by
  fin_cases h <;> decide

theorem atLargeScan_of_no_a (l : List Char) (h : ∀ c ∈ l, c.toLower ≠ 'a') :
    atLargeScan l = false := by
  induction l with
  | nil => rfl
  | cons c cs ih =>
    have hc : c.toLower ≠ 'a' := h c (by simp)
    have hrest : atLargeScan cs = false := ih (fun x hx => h x (List.mem_cons_of_mem _ hx))
    cases cs with
    | nil => simp [atLargeScan]
    | cons t rest =>
      simp only [atLargeScan]
      simp only [atLargeScan] at hrest
      simp [hc, hrest]

theorem atLargeTest_natRepr (n : Nat) : atLargeTest (Nat.repr n) = false := by
  unfold atLargeTest
  rw [natRepr_data]
  exact atLargeScan_of_no_a _ (fun c hc => digit_toLower_ne_a c (toDigits_mem n c hc))

theorem intRepr_data_negSucc (m : Nat) :
    (Int.repr (Int.negSucc m)).data = '-' :: Nat.toDigits 10 (m + 1) := by
  show (("-" ++ Nat.repr (m + 1)) : String).data = _
  rw [String.data_append, natRepr_data]
  rfl

theorem atLargeTest_intRepr (n : Int) : atLargeTest (Int.repr n) = false := by
  cases n with
  | ofNat m => exact atLargeTest_natRepr m
  | negSucc m =>
    unfold atLargeTest
    rw [intRepr_data_negSucc]
    refine atLargeScan_of_no_a _ ?_
    intro c hc
    rcases List.mem_cons.mp hc with rfl | hc
    · decide
    · exact digit_toLower_ne_a c (toDigits_mem _ c hc)

theorem intRepr_eq_zero_iff (n : Int) : Int.repr n = "0" ↔ n = 0 := by
  cases n with
  | ofNat m =>
    show Nat.repr m = "0" ↔ _
    rw [natRepr_eq_zero_iff]
    constructor
    · rintro rfl
      rfl
    · intro h
      have hm : (m : Int) = 0 := h
      omega
  | negSucc m =>
    constructor
    · intro h
      have := congrArg String.data h
      rw [intRepr_data_negSucc] at this
      have hh : '-' = '0' := by injection this
      exact absurd hh (by decide)
    · intro h
      exact Int.noConfusion h

theorem intRepr_ne_empty (n : Int) : Int.repr n ≠ "" := by
  cases n with
  | ofNat m => exact natRepr_ne_empty m
  | negSucc m =>
    intro h
    have := congrArg String.data h
    rw [intRepr_data_negSucc] at this
    exact absurd this (by simp)

/-! ### Claim C4: district normalization of House term records -/

/-- Clean characterization of `normDistrict` (the amended form of claim C4):
the result is `"1"` for a missing value, the number zero, the empty string,
a string whose first digit run parses to zero, and a digit-free string that
matches the at-large pattern; otherwise a digit-bearing string yields its
first digit run as a decimal numeral, a digit-free string passes through
verbatim, and a nonzero number yields its decimal rendering. -/
def amendedNormDistrict : Option RawDistrict → String
  | none => "1"
  | some (RawDistrict.numVal n) => if n = 0 then "1" else Int.repr n
  | some (RawDistrict.strVal s) =>
    match firstDigitRun s.data with
    | some ds => if digitsToNat ds = 0 then "1" else Nat.repr (digitsToNat ds)
    | none => if s = "" || atLargeTest s then "1" else s

/-- Claim C4, counterexample: the claim says a raw district whose original
text matches the at-large pattern normalizes to `"1"`, but on the raw string
`"at large 5"` (which matches `/at[-\s]*large/i`) the code extracts the
digit run first and tests the regex against the extracted `"5"`, so the
normalized district is `"5"`, not `"1"`. -/
theorem claim4_counterexample :
    normDistrict (some (RawDistrict.strVal "at large 5")) = "5" ∧
      atLargeTest "at large 5" = true := by
  constructor
  · decide
  · decide

/-- Claim C4, amended: for every House term record, the normalized district
agrees with `amendedNormDistrict`: it is `"1"` exactly when the raw value is
missing, the number zero, the empty string, a string whose first embedded
digit run parses to zero, or a digit-free string matching the at-large
pattern (the at-large test runs on the digit-extracted value, not on the
original text); otherwise it is the first embedded digit run rendered as a
decimal integer string, with a digit-free non-at-large string passed through
verbatim and a nonzero number rendered decimally. -/
theorem claim4_amended (raw : Option RawDistrict) :
    normDistrict raw = amendedNormDistrict raw := by
  cases raw with
  | none => rfl
  | some rd =>
    cases rd with
    | numVal n =>
      by_cases hn : n = 0
      · subst hn
        rfl
      · have h0 : ¬(Int.repr n = "0") := fun h => hn ((intRepr_eq_zero_iff n).mp h)
        simp [normDistrict, districtAfterExtract, rawTruthyStr, rawToStr,
          amendedNormDistrict, hn, h0, atLargeTest_intRepr]
    | strVal s =>
      rcases hds : firstDigitRun s.data with _ | ds
      · by_cases hs : s = ""
        · subst hs
          rfl
        · have hzero : ¬(s = "0") := by
            rintro rfl
            exact absurd hds (by decide)
          simp [normDistrict, districtAfterExtract, rawTruthyStr, rawToStr,
            amendedNormDistrict, hds, hs, hzero]
      · have hne : ¬(Nat.repr (digitsToNat ds) = "") := natRepr_ne_empty _
        by_cases hz : digitsToNat ds = 0
        · have h00 : Nat.repr 0 = "0" := rfl
          simp [normDistrict, districtAfterExtract, rawTruthyStr, rawToStr,
            amendedNormDistrict, hds, hz, h00]
        · have h0 : ¬(Nat.repr (digitsToNat ds) = "0") :=
            fun h => hz ((natRepr_eq_zero_iff _).mp h)
          simp [normDistrict, districtAfterExtract, rawTruthyStr, rawToStr,
            amendedNormDistrict, hds, hne, hz, h0, atLargeTest_natRepr]

/-! ### Claim C1: no term is skipped by the index build -/

/-- Number of House terms (`type === 'rep'`) in a roster. -/
def countRepTerms : List Person → Nat
  | [] => 0
  | p :: ps => (repTerms p).length + countRepTerms ps

/-- Total number of candidates accumulated in a candidate map. -/
def totalCandidates : List (String × List Candidate) → Nat
  | [] => 0
  | kv :: rest => kv.2.length + totalCandidates rest

theorem amPush_totalCandidates (m : List (String × List Candidate)) (k : String)
    (c : Candidate) : totalCandidates (amPush m k c) = totalCandidates m + 1 := by
  induction m with
  | nil => rfl
  | cons kv rest ih =>
    simp only [amPush]
    split
    · simp [totalCandidates]
      omega
    · simp [totalCandidates, ih]
      omega

theorem foldl_amPush_total (p : Person) (today : Int) (l : List TermRecord)
    (m : List (String × List Candidate)) :
    totalCandidates (l.foldl (fun m2 t => amPush m2 (keyOf t) (mkCandidate p t today)) m) =
      totalCandidates m + l.length := by
  induction l generalizing m with
  | nil => simp
  | cons t ts ih =>
    simp only [List.foldl_cons]
    rw [ih, amPush_totalCandidates]
    simp
    omega

theorem buildMapAux_total (today : Int) (docs : List Person)
    (m : List (String × List Candidate)) :
    totalCandidates (buildMapAux today docs m) = totalCandidates m + countRepTerms docs := by
  induction docs generalizing m with
  | nil => simp [buildMapAux, countRepTerms]
  | cons p ps ih =>
    simp only [buildMapAux, countRepTerms]
    rw [ih, foldl_amPush_total]
    omega

/-- A House term with an unparseable start date and a missing state, the
malformations named by claim C1. -/
def malformedTerm : TermRecord :=
  { type := "rep", state := none, district := some (RawDistrict.strVal "3")
  , start := some JDate.invalid, «end» := none
  , party := none, phone := none, url := none }

/-- A roster person holding only `malformedTerm`. -/
def malformedPerson : Person :=
  { name := none, first_name := none, last_name := none, full_name := none
  , party := none, phone := none, url := none, website := none
  , bioguide := none, terms := [malformedTerm] }

/-- Claim C1, counterexample: the claim says a term with an unparseable
start date or a missing state is skipped and contributes no candidate and no
index entry; but building from a roster whose only House term has an invalid
start date and no state produces one candidate and an index entry under the
literal key `"undefined-3"`. -/
theorem claim1_counterexample :
    (amLookup (loadIndex [malformedPerson] 0) "undefined-3").isSome = true ∧
      totalCandidates (buildMap [malformedPerson] 0) = 1 := by
  constructor
  · decide
  · decide

/-- Claim C1, amended: the build never aborts and never skips a term —
every House term of the roster contributes exactly one candidate to the
candidate map (a missing state lands the term under the key
`"undefined-<district>"`), and a term with an unparseable start or end date
is merely classified as not current. -/
theorem claim1_amended (docs : List Person) (today : Int) :
    totalCandidates (buildMap docs today) = countRepTerms docs ∧
      ∀ t : TermRecord, (t.start = some JDate.invalid ∨ t.«end» = some JDate.invalid) →
        isCurrentTerm t today = false := by
  constructor
  · have h := buildMapAux_total today docs []
    simpa [buildMap, totalCandidates] using h
  · intro t ht
    rcases ht with h | h <;> simp [isCurrentTerm, h, dLE, dGE]

/-- Witness for claim C1's amended theorem at a concrete roster. -/
theorem claim1_amended_witness :
    totalCandidates (buildMap [malformedPerson] 5) = countRepTerms [malformedPerson] ∧
      isCurrentTerm malformedTerm 5 = false :=
  ⟨(claim1_amended [malformedPerson] 5).1,
   (claim1_amended [malformedPerson] 5).2 malformedTerm (Or.inl rfl)⟩

/-! ### Claim C8: the build is a deterministic function of roster and instant -/

/-- The roster term of the idempotence witness. -/
def janeTerm : TermRecord :=
  { type := "rep", state := some "CA", district := some (RawDistrict.strVal "12")
  , start := some (JDate.valid 100), «end» := none
  , party := some "D", phone := none, url := none }

/-- The roster person of the idempotence witness. -/
def janePerson : Person :=
  { name := some (JNameVal.objName (some "Jane") none (some "Doe"))
  , first_name := none, last_name := none, full_name := none
  , party := none, phone := none, url := none, website := none
  , bioguide := some "J000001", terms := [janeTerm] }

/-- Claim C8: two builds from equal rosters at the same evaluation instant
agree key by key — `loadIndex` is a pure function of the roster and the
instant, with no other input. -/
theorem claim8_deterministic (docs1 docs2 : List Person) (t1 t2 : Int)
    (hd : docs1 = docs2) (ht : t1 = t2) :
    ∀ k : String, amLookup (loadIndex docs1 t1) k = amLookup (loadIndex docs2 t2) k := by
  subst hd
  subst ht
  intro k
  rfl

/-- Witness for claim C8 at a concrete roster, instant and key. -/
theorem claim8_witness :
    amLookup (loadIndex [janePerson] 200) "CA-12" =
      amLookup (loadIndex [janePerson] 200) "CA-12" :=
  claim8_deterministic [janePerson] [janePerson] 200 200 rfl rfl "CA-12"

/-! ### Claim C10: a failed reload leaves the published index untouched -/

/-- Claim C10: when the roster read or YAML parse of a reload fails, the
handler catches the error and the published index is exactly the previous
one (the fresh index is only ever published by the single final assignment
of a successful `loadIndex` run, reflected in the success equation). -/
theorem claim10_failed_reload (prev : List (String × Entry)) (msg : String) (today : Int) :
    reloadHandler prev (Except.error msg) today = (prev, false) ∧
      ∀ docs : List Person,
        reloadHandler prev (Except.ok docs) today = (loadIndex docs today, true) :=
  ⟨rfl, fun _ => rfl⟩

/-! ### Claim C2: rule order of the district-number extraction -/

/-- Modelled from the spec wording of claim C2 — rule (a), a `CD`-named
field, tried over the whole object first (its value used directly); only
if no such field yields does rule (b), a name-field whose value mentions
"district", apply; then the `NAME` fallback.  This definition follows the
claim's words and exists only to exhibit the divergence from
`districtNumOf`. -/
def specDistrictNumOf (cd : CDObj) : Option String :=
  match cd.find? (fun kv => isCDKey kv.1 && kv.2 ≠ "") with
  | some kv => some kv.2
  | none =>
    match cd.find? (fun kv => containsCI kv.1 ['n','a','m','e'] && kv.2 ≠ "" &&
        containsCI kv.2 ['d','i','s','t','r','i','c','t'] &&
        (trailingDigits kv.2).isSome) with
    | some kv => (trailingDigits kv.2).map (fun ds => Nat.repr (digitsToNat ds))
    | none =>
      match truthyGet cd "NAME" with
      | some nv => (trailingDigits nv).map (fun ds => Nat.repr (digitsToNat ds))
      | none => none

/-- Claim C2, counterexample: on the object
`{BASENAME: "District 5", CD3: "7"}` the claimed whole-object rule priority
yields `"7"` from the `CD3` field, but the code runs both rules during one
pass over the fields in object order, so the name rule fires at the earlier
`BASENAME` field and the extracted district is `"5"`. -/
theorem claim2_counterexample :
    districtNumOf [("BASENAME", "District 5"), ("CD3", "7")] = some "5" ∧
      specDistrictNumOf [("BASENAME", "District 5"), ("CD3", "7")] = some "7" := by
  constructor
  · decide
  · decide

theorem scanKeys_first_match (k v d : String) (hk : fieldYield k v = some d)
    (post : List (String × String)) :
    ∀ pre : List (String × String), (∀ kv ∈ pre, fieldYield kv.1 kv.2 = none) →
      scanKeys (pre ++ (k, v) :: post) = some d := by
  intro pre
  induction pre with
  | nil =>
    intro _
    simp [scanKeys, hk]
  | cons a rest ih =>
    intro hpre
    have ha : fieldYield a.1 a.2 = none := hpre a (by simp)
    have hrest : ∀ kv ∈ rest, fieldYield kv.1 kv.2 = none :=
      fun kv hkv => hpre kv (List.mem_cons_of_mem _ hkv)
    obtain ⟨ka, va⟩ := a
    simp only [List.cons_append, scanKeys]
    rw [ha]
    exact ih hrest

/-- Claim C2, amended: the CD rule and the name rule are tried per field in
a single pass over the object's keys in order, first yield wins (with the
CD value parsed as an integer, not used verbatim): whenever no field before
position `i` yields and the field at `i` yields `d`, the extracted district
number is `d` regardless of any later field; and an object in which no rule
yields a number is treated as at-large, producing district `"1"`. -/
theorem claim2_amended :
    (∀ (pre post : List (String × String)) (k v d : String),
        (∀ kv ∈ pre, fieldYield kv.1 kv.2 = none) → fieldYield k v = some d →
        districtNumOf (pre ++ (k, v) :: post) = some d) ∧
      ∀ cd : CDObj, districtNumOf cd = none → finalDistrict (districtNumOf cd) = "1" := by
  constructor
  · intro pre post k v d hpre hk
    have hscan := scanKeys_first_match k v d hk post pre hpre
    simp [districtNumOf, hscan]
  · intro cd h
    simp [finalDistrict, h]

/-- Witness for claim C2's amended theorem at a concrete object. -/
theorem claim2_amended_witness :
    districtNumOf [("foo", "bar"), ("CD1", "12")] = some "12" :=
  claim2_amended.1 [("foo", "bar")] [] "CD1" "12" "12" (by decide) (by decide)

/-! ### Claim C5: locating the congressional-district collection -/

/-- Geography mapping whose scanned congress key holds an empty array while
a fixed-list spelling holds data; claim C5's counterexample input. -/
def mixedGeogs : Geogs :=
  [("my congress layer", []), ("Congressional District", [[("STATE", "06")]])]

/-- Claim C5, counterexample: the claim says the fixed-list fallback runs
only when no key of the scan matches; but on `mixedGeogs` the scan does
match (the first key contains "congress") and returns an empty collection,
and the code still falls back to the exact spelling `Congressional
District`, returning its objects instead of reporting an error. -/
theorem claim5_counterexample :
    scanCongress mixedGeogs = some [] ∧
      findCDArray mixedGeogs = Except.ok [[("STATE", "06")]] := by
  constructor
  · decide
  · rfl

/-- Claim C5, amended: the scan picks the first key containing "congress"
case-insensitively and its nonempty collection is used as is; the
fixed-list fallback runs both when no key matches and when the matched
collection is empty, and only when the fallback too yields nothing nonempty
is the no-districts error reported instead of any keys. -/
theorem claim5_amended (g : Geogs) :
    (∀ v, scanCongress g = some v → v ≠ [] → findCDArray g = Except.ok v) ∧
      ((scanCongress g = none ∨ scanCongress g = some []) →
        findCDArray g =
          (match fallbackLookup g with
           | some w => if w.isEmpty then Except.error CENSUS_ERR else Except.ok w
           | none => Except.error CENSUS_ERR)) := by
  constructor
  · intro v hv hne
    simp [findCDArray, hv, hne]
  · intro h
    rcases h with h | h <;> simp [findCDArray, h]

/-- Witness for claim C5's amended theorem: a mixed-case congress key with a
nonempty collection is found by the scan and returned. -/
theorem claim5_amended_witness :
    findCDArray [("116th Congressional Districts", [[("STATEFP", "48")]])] =
      Except.ok [[("STATEFP", "48")]] :=
  (claim5_amended [("116th Congressional Districts", [[("STATEFP", "48")]])]).1
    [[("STATEFP", "48")]] (by decide) (by decide)

/-! ### Claim C6: missing index entries resolve to placeholders, not errors -/

/-- Claim C6: for every resolved key with no index entry, the resolution
service returns the placeholder record carrying the state and district
parsed back out of the key and the explicit `missing := true` flag, with
every other field absent — absence is data, and `resolveOne` is a total
function, so no exception is possible. -/
theorem claim6_missing_placeholder (index : List (String × Entry)) (k : String)
    (h : amLookup index k = none) :
    resolveOne index k =
      { state := ((jsSplit k '-').get? 0).getD ""
      , district := (jsSplit k '-').get? 1
      , name := none, party := none, phone := none, url := none
      , bioguide := none, photo := none, raw_person := none, raw_term := none
      , missing := true } := by
  simp [resolveOne, h]

/-- Witness for claim C6 at the empty index and the key `"CA-12"`. -/
theorem claim6_witness :
    resolveOne [] "CA-12" =
      { state := "CA", district := some "12"
      , name := none, party := none, phone := none, url := none
      , bioguide := none, photo := none, raw_person := none, raw_term := none
      , missing := true } :=
  claim6_missing_placeholder [] "CA-12" rfl

/-! ### Claim C7: an unresolvable state FIPS skips only that object -/

theorem keyOfCD_none_of_stateOf_none (cd : CDObj) (h : stateOf cd = none) :
    keyOfCD cd = none := by
  simp [keyOfCD, h]

theorem extractKeysAux_skip (l2 : List CDObj) (cd : CDObj) (h : keyOfCD cd = none) :
    ∀ (l1 : List CDObj) (acc : List String),
      extractKeysAux (l1 ++ cd :: l2) acc = extractKeysAux (l1 ++ l2) acc := by
  intro l1
  induction l1 with
  | nil =>
    intro acc
    simp [extractKeysAux, h]
  | cons x xs ih =>
    intro acc
    simp only [List.cons_append, extractKeysAux]
    exact ih _

/-- Claim C7: a district object whose state FIPS (read from `STATE`, then
`STATEFP`, then the first two characters of `GEOID`, padded and translated
through `FIPS_TO_STATE` — the definition of `stateOf`) cannot be resolved
is skipped from the result set without affecting any other object: the
extraction over the full list equals the extraction with that object
removed, and never fails as a whole. -/
theorem claim7_fips_skip (l1 l2 : List CDObj) (cd : CDObj) (h : stateOf cd = none) :
    extractKeys (l1 ++ cd :: l2) = extractKeys (l1 ++ l2) := by
  unfold extractKeys
  exact extractKeysAux_skip l2 cd (keyOfCD_none_of_stateOf_none cd h) l1 []

/-- Witness for claim C7: an unrecognized FIPS code `99` contributes
nothing while the surrounding objects still resolve. -/
theorem claim7_witness :
    extractKeys [[("STATE", "06"), ("NAME", "Congressional District 12")],
        [("STATE", "99")]] =
      extractKeys [[("STATE", "06"), ("NAME", "Congressional District 12")]] :=
  claim7_fips_skip [[("STATE", "06"), ("NAME", "Congressional District 12")]] []
    [("STATE", "99")] (by decide)

/-! ### Claim C9: one resolved representative per distinct extracted key -/

theorem setAdd_nodup (l : List String) (k : String) (h : l.Nodup) :
    (setAdd l k).Nodup := by
  by_cases hk : k ∈ l
  · simpa [setAdd, hk] using h
  · rw [setAdd, if_neg hk]
    exact List.nodup_append.mpr
      ⟨h, List.nodup_singleton k,
       fun a ha hak => by
         simp only [List.mem_singleton] at hak
         subst hak
         exact hk ha⟩

theorem extractKeysAux_nodup (cds : List CDObj) :
    ∀ acc : List String, acc.Nodup → (extractKeysAux cds acc).Nodup := by
  induction cds with
  | nil => intro acc h; exact h
  | cons cd rest ih =>
    intro acc h
    cases hk : keyOfCD cd with
    | none =>
      simp only [extractKeysAux, hk]
      exact ih acc h
    | some k =>
      simp only [extractKeysAux, hk]
      exact ih _ (setAdd_nodup acc k h)

/-- Claim C9: the extracted key set contains no duplicates, and resolving
it yields exactly one `ResolvedRep` per key — the output list has exactly
the length of the (duplicate-free) key list, one entry mapped from each. -/
theorem claim9_one_per_key (index : List (String × Entry)) (cds : List CDObj) :
    (extractKeys cds).Nodup ∧
      (resolveReps index (extractKeys cds)).length = (extractKeys cds).length := by
  refine ⟨extractKeysAux_nodup cds [] List.nodup_nil, ?_⟩
  simp [resolveReps]

/-! ### Claim C3: selecting the officeholder among a key's candidates -/

theorem betterStart_self (a : Candidate) : betterStart a a = a := by
  rcases h : a.start with _ | v
  · simp [betterStart, h]
  · simp [betterStart, h]

/-- Clean form of the reduce step once the challenger's start is a number. -/
def cleanBetter (best cur : Candidate) : Candidate :=
  if best.start.getD 0 < cur.start.getD 0 then cur else best

theorem betterStart_eq_clean (best cur : Candidate) (h : cur.start.isSome = true) :
    betterStart best cur = cleanBetter best cur := by
  rcases hc : cur.start with _ | cv
  · rw [hc] at h
    simp at h
  · simp [betterStart, cleanBetter, hc]

theorem foldl_betterStart_eq_clean (l : List Candidate) :
    ∀ b : Candidate, (∀ c ∈ l, c.start.isSome = true) →
      l.foldl betterStart b = l.foldl cleanBetter b := by
  induction l with
  | nil =>
    intro b _
    rfl
  | cons x xs ih =>
    intro b h
    simp only [List.foldl_cons]
    rw [betterStart_eq_clean b x (h x (by simp))]
    exact ih _ (fun c hc => h c (List.mem_cons_of_mem _ hc))

theorem foldl_betterStart_mem (l : List Candidate) :
    ∀ b : Candidate, l.foldl betterStart b ∈ b :: l := by
  induction l with
  | nil =>
    intro b
    simp
  | cons x xs ih =>
    intro b
    simp only [List.foldl_cons]
    have hbx : betterStart b x = b ∨ betterStart b x = x := by
      rcases hc : x.start with _ | v
      · exact Or.inl (by simp [betterStart, hc])
      · by_cases hlt : b.start.getD 0 < v
        · exact Or.inr (by simp [betterStart, hc, hlt])
        · exact Or.inl (by simp [betterStart, hc, hlt])
    rcases hbx with h1 | h1
    · rw [h1]
      rcases List.mem_cons.mp (ih b) with h2 | h2
      · rw [h2]
        simp
      · exact List.mem_cons_of_mem _ (List.mem_cons_of_mem _ h2)
    · rw [h1]
      exact List.mem_cons_of_mem _ (ih x)

theorem foldl_cleanBetter_first_max (l : List Candidate) :
    ∀ b : Candidate,
      ∃ l1 l2, b :: l = l1 ++ (l.foldl cleanBetter b) :: l2 ∧
        (∀ c ∈ b :: l, c.start.getD 0 ≤ (l.foldl cleanBetter b).start.getD 0) ∧
        (∀ c ∈ l1, c.start.getD 0 < (l.foldl cleanBetter b).start.getD 0) := by
  induction l with
  | nil =>
    intro b
    exact ⟨[], [], rfl, by simp, by simp⟩
  | cons x xs ih =>
    intro b
    simp only [List.foldl_cons]
    by_cases hbx : b.start.getD 0 < x.start.getD 0
    · have hstep : cleanBetter b x = x := by simp [cleanBetter, hbx]
      rw [hstep]
      obtain ⟨l1, l2, hsplit, hmax, hlt⟩ := ih x
      refine ⟨b :: l1, l2, ?_, ?_, ?_⟩
      · rw [List.cons_append, ← hsplit]
      · intro c hc
        rcases List.mem_cons.mp hc with rfl | hc
        · have hx := hmax x (by simp)
          omega
        · exact hmax c hc
      · intro c hc
        rcases List.mem_cons.mp hc with rfl | hc
        · have hx := hmax x (by simp)
          omega
        · exact hlt c hc
    · have hstep : cleanBetter b x = b := by simp [cleanBetter, hbx]
      rw [hstep]
      obtain ⟨l1, l2, hsplit, hmax, hlt⟩ := ih b
      cases l1 with
      | nil =>
        rw [List.nil_append] at hsplit
        injection hsplit with hr hl2
        refine ⟨[], x :: xs, ?_, ?_, by simp⟩
        · rw [List.nil_append, ← hr]
        · intro c hc
          rcases List.mem_cons.mp hc with rfl | hc
          · exact hmax c (by simp)
          · rcases List.mem_cons.mp hc with rfl | hc2
            · have hb := hmax b (by simp)
              omega
            · exact hmax c (List.mem_cons_of_mem _ hc2)
      | cons y ys =>
        rw [List.cons_append] at hsplit
        injection hsplit with hy hxs
        refine ⟨y :: x :: ys, l2, ?_, ?_, ?_⟩
        · rw [List.cons_append, List.cons_append, ← hy, ← hxs]
        · intro c hc
          rcases List.mem_cons.mp hc with rfl | hc
          · exact hmax c (by simp)
          · rcases List.mem_cons.mp hc with rfl | hc2
            · have hb := hmax b (by simp)
              omega
            · exact hmax c (List.mem_cons_of_mem _ hc2)
        · intro c hc
          rcases List.mem_cons.mp hc with rfl | hc
          · exact hlt c (by simp)
          · rcases List.mem_cons.mp hc with rfl | hc2
            · have hb : b.start.getD 0 < (xs.foldl cleanBetter b).start.getD 0 := by
                nth_rewrite 1 [hy]
                exact hlt y (by simp)
              omega
            · exact hlt c (List.mem_cons_of_mem _ hc2)

/-- Claim C3: for a nonempty candidate list of one key, the builder selects
exactly one candidate; if any candidate is current the selected one is
current (in particular a unique current candidate is the selected one
however many non-current candidates share the key); and if no candidate is
current, then — over candidates whose start epochs are numbers — the
selected candidate carries the greatest start epoch and every candidate
encountered before it is strictly smaller (first-encountered tie-break). -/
theorem claim3_selection (arr : List Candidate) (hne : arr ≠ []) :
    ∃ chosen, chooseCandidate arr = some chosen ∧ chosen ∈ arr ∧
      ((∃ c ∈ arr, c.isCurrent = true) → chosen.isCurrent = true) ∧
      (∀ u ∈ arr, u.isCurrent = true →
        (∀ c ∈ arr, c.isCurrent = true → c = u) → chosen = u) ∧
      ((∀ c ∈ arr, c.isCurrent = false) → (∀ c ∈ arr, c.start.isSome = true) →
        (∀ c ∈ arr, c.start.getD 0 ≤ chosen.start.getD 0) ∧
        ∃ l1 l2, arr = l1 ++ chosen :: l2 ∧
          ∀ c ∈ l1, c.start.getD 0 < chosen.start.getD 0) := by
  cases hfind : arr.find? (fun a => a.isCurrent) with
  | some c =>
    have hcur : c.isCurrent = true := by
      have := List.find?_some hfind
      simpa using this
    have hmem : c ∈ arr := List.mem_of_find?_eq_some hfind
    refine ⟨c, by simp [chooseCandidate, hfind], hmem, fun _ => hcur, ?_, ?_⟩
    · intro u _ _ huniq
      exact huniq c hmem hcur
    · intro hnone _
      exact absurd hcur (by simp [hnone c hmem])
  | none =>
    have hnocur : ∀ c ∈ arr, ¬(c.isCurrent = true) := by
      intro c hc
      have := List.find?_eq_none.mp hfind c hc
      simpa using this
    cases arr with
    | nil => exact absurd rfl hne
    | cons a0 rest =>
      have hchoose : chooseCandidate (a0 :: rest) = some (rest.foldl betterStart a0) := by
        simp only [chooseCandidate, hfind, List.foldl_cons, betterStart_self]
      refine ⟨rest.foldl betterStart a0, hchoose, foldl_betterStart_mem rest a0, ?_, ?_, ?_⟩
      · rintro ⟨c, hc, hcur⟩
        exact absurd hcur (hnocur c hc)
      · intro u hu hucur _
        exact absurd hucur (hnocur u hu)
      · intro _ hval
        have hcl : rest.foldl betterStart a0 = rest.foldl cleanBetter a0 :=
          foldl_betterStart_eq_clean rest a0
            (fun c hc => hval c (List.mem_cons_of_mem _ hc))
        obtain ⟨l1, l2, hsplit, hmax, hlt⟩ := foldl_cleanBetter_first_max rest a0
        rw [hcl]
        exact ⟨hmax, l1, l2, hsplit, hlt⟩

/-- Term of the selection witness. -/
def selTerm : TermRecord :=
  { type := "rep", state := some "TX", district := some (RawDistrict.strVal "9")
  , start := some (JDate.valid 10), «end» := none
  , party := none, phone := none, url := none }

/-- Person of the selection witness. -/
def selPerson : Person :=
  { name := none, first_name := none, last_name := none, full_name := none
  , party := none, phone := none, url := none, website := none
  , bioguide := none, terms := [selTerm] }

/-- A current candidate for the selection witness. -/
def candCur : Candidate :=
  { person := selPerson, term := selTerm, isCurrent := true, start := some 10 }

/-- A non-current candidate for the selection witness. -/
def candOld : Candidate :=
  { person := selPerson, term := selTerm, isCurrent := false, start := some 5 }

/-- Witness for claim C3 on a concrete two-candidate list. -/
theorem claim3_selection_witness :
    ∃ chosen, chooseCandidate [candOld, candCur] = some chosen ∧
      chosen ∈ [candOld, candCur] ∧
      ((∃ c ∈ [candOld, candCur], c.isCurrent = true) → chosen.isCurrent = true) ∧
      (∀ u ∈ [candOld, candCur], u.isCurrent = true →
        (∀ c ∈ [candOld, candCur], c.isCurrent = true → c = u) → chosen = u) ∧
      ((∀ c ∈ [candOld, candCur], c.isCurrent = false) →
        (∀ c ∈ [candOld, candCur], c.start.isSome = true) →
        (∀ c ∈ [candOld, candCur], c.start.getD 0 ≤ chosen.start.getD 0) ∧
        ∃ l1 l2, [candOld, candCur] = l1 ++ chosen :: l2 ∧
          ∀ c ∈ l1, c.start.getD 0 < chosen.start.getD 0) :=
  claim3_selection [candOld, candCur] (by decide)

end RepFinder
